import Mathlib

/-!
Verification of the Terminal.js text-tracing library (module `Terminal`,
style-inclusive variant: `Buffer`, `Screen`, `View`).

Shallow embedding conventions:
- JS numbers are modeled as exact integers (`Nat` where the source value is
  always a nonnegative count or index, `Int` where the source arithmetic can go
  negative, `Rat` for the fractional scroll offsets of `View`).
- JS typed arrays are modeled as `Array Nat` whose size is the allocated
  capacity.  A store to an out-of-range index is silently dropped and a load
  from an out-of-range index yields 0, matching `Uint8Array`/`Uint16Array`/
  `Uint32Array` behaviour on fresh (zero-initialised) backing storage.  Stored
  values are truncated to the element width (`% 256` for `Uint8Array`,
  `% 65536` for `Uint16Array`).  `Uint32Array` truncation of line starts is
  not modeled: it is observable only past 2^32 appended characters.
- Growth (`new Uint8Array(len * 2)` followed by `set`) is `grow`: the old
  contents followed by `len` zeros.
-/

namespace Terminal

/-- Load `a[i]` from a typed array: element value in bounds, 0 out of bounds. -/
def aget (a : Array Nat) (i : Nat) : Nat := a.getD i 0

/-- Store `a[i] = v` into a typed array: no-op when out of bounds. -/
def aset (a : Array Nat) (i v : Nat) : Array Nat := a.setD i v

/-- Reallocation at double capacity: old contents followed by zeros. -/
def grow (a : Array Nat) : Array Nat := a ++ Array.mkArray a.size 0

theorem size_aset (a : Array Nat) (i v : Nat) : (aset a i v).size = a.size := by
  simp only [aset, Array.setD]
  split <;> simp

theorem aget_mkArray (n v i : Nat) :
    aget (Array.mkArray n v) i = if i < n then v else 0 := by
  simp only [aget, Array.getD, Array.size_mkArray, Array.get_eq_getElem]
  split <;> rename_i hlt
  · simp [hlt]
  · simp [hlt]

theorem aget_aset (a : Array Nat) (i v j : Nat) :
    aget (aset a i v) j = if i = j ∧ i < a.size then v else aget a j := by
  simp only [aset, aget, Array.setD, Array.getD, Array.get_eq_getElem]
  split <;> rename_i hi
  · split <;> rename_i hj
    · rw [Array.size_set] at hj
      rw [Array.getElem_set]
      by_cases hij : i = j
      · simp [hij, hj, hij ▸ hi]
      · simp [hij, hj]
    · rw [Array.size_set] at hj
      rw [dif_neg hj, if_neg]
      intro h
      exact hj (h.1 ▸ hi)
  · rw [if_neg]
    intro h
    exact hi h.2

theorem aget_aset_ne (a : Array Nat) (i v j : Nat) (h : i ≠ j) :
    aget (aset a i v) j = aget a j := by
  rw [aget_aset, if_neg]
  intro hc
  exact h hc.1

theorem aget_aset_self (a : Array Nat) (i v : Nat) (h : i < a.size) :
    aget (aset a i v) i = v := by
  rw [aget_aset, if_pos ⟨rfl, h⟩]

theorem size_grow (a : Array Nat) : (grow a).size = 2 * a.size := by
  simp [grow]
  omega

theorem aget_grow (a : Array Nat) (j : Nat) : aget (grow a) j = aget a j := by
  simp only [grow, aget, Array.getD, Array.get_eq_getElem, Array.size_append,
    Array.size_mkArray]
  split <;> rename_i h1
  · rw [Array.getElem_append]
    split <;> rename_i h2
    · simp [h2]
    · simp [h2]
  · rw [dif_neg]
    omega

/-- Source function `clamp(value, min, max) = Math.max(min, Math.min(max, value))`. -/
def clamp {A : Type} [LinearOrder A] (value lo hi : A) : A := max lo (min hi value)

/-- The append-only log buffer (`Terminal.Buffer`).  Field names follow the
source: `starts` (line start offsets, `Uint32Array`), `buffer` (code points,
`Uint8Array`), `styles` (`Uint8Array`), `colors` (`Uint16Array`), `h` (row
count), `columns` (column cap), `i` (write index), `color` / `style` (active
attributes), `previousMaxLineWidth`, `version`. -/
structure Buffer where
  starts : Array Nat
  buffer : Array Nat
  styles : Array Nat
  colors : Array Nat
  h : Nat
  columns : Nat
  i : Nat
  color : Nat
  style : Nat
  previousMaxLineWidth : Nat
  version : Nat
deriving DecidableEq

/-- Derived width getter `w`: `max(previousMaxLineWidth, i - starts[h - 1])`. -/
def Buffer.w (b : Buffer) : Nat :=
  max b.previousMaxLineWidth (b.i - aget b.starts (b.h - 1))

/-- Source method `Buffer.clear`. -/
def Buffer.clear (b : Buffer) : Buffer :=
  { b with h := 1, i := 0, version := 0, previousMaxLineWidth := 0 }

/-- Source method `Buffer.newLine`: grow `starts` (doubling) when full, record
the completed row width into `previousMaxLineWidth`, push `i` as the start of
the next row, bump `version`. -/
def Buffer.newLine (b : Buffer) : Buffer :=
  let starts := if b.starts.size = b.h then grow b.starts else b.starts
  { b with
    starts := aset starts b.h b.i,
    previousMaxLineWidth :=
      max b.previousMaxLineWidth (b.i - aget starts (b.h - 1)),
    h := b.h + 1,
    version := b.version + 1 }

/-- Source method `Buffer.writeCharCode`: force a line break when the current
row has reached the column cap, grow the three parallel arrays (doubling) when
full, then append code, color and style and bump `i` and `version`. -/
def Buffer.writeCharCode (b : Buffer) (x : Nat) : Buffer :=
  let b1 := if b.i - aget b.starts (b.h - 1) ≥ b.columns then b.newLine else b
  let b2 :=
    if b1.buffer.size = b1.i then
      { b1 with
        buffer := grow b1.buffer, styles := grow b1.styles,
        colors := grow b1.colors }
    else b1
  { b2 with
    styles := aset b2.styles b2.i (b2.style % 256),
    colors := aset b2.colors b2.i (b2.color % 65536),
    buffer := aset b2.buffer b2.i (x % 256),
    i := b2.i + 1,
    version := b2.version + 1 }

/-- Source method `Buffer.writeString`: a newline code point (10) triggers
`newLine()` instead of being stored; every other code point is appended. -/
def Buffer.writeString (b : Buffer) (s : List Nat) : Buffer :=
  s.foldl (fun acc c => if c = 10 then acc.newLine else acc.writeCharCode c) b

/-- The `Buffer` constructor: active color `0xFFFF`, style `Normal` (0), then
`clear()`, then allocation of the backing arrays (`starts` capacity 32, data
capacity `1024 * 1024` each); `columns` defaults to `1024 * 1024` in source. -/
def Buffer.new (columns : Nat) : Buffer :=
  { starts := Array.mkArray 32 0
    buffer := Array.mkArray 1048576 0
    styles := Array.mkArray 1048576 0
    colors := Array.mkArray 1048576 0
    h := 1
    columns := columns
    i := 0
    color := 65535
    style := 0
    previousMaxLineWidth := 0
    version := 0 }

/-- A write call on the buffer, as issued by callers: `writeCharCode`,
`writeString` or `newLine`. -/
inductive WOp where
  | write (c : Nat)
  | writeStr (s : List Nat)
  | newline
deriving DecidableEq

/-- Execute one buffer call. -/
def Buffer.step (b : Buffer) (op : WOp) : Buffer :=
  match op with
  | .write c => b.writeCharCode c
  | .writeStr s => b.writeString s
  | .newline => b.newLine

/-- Execute a sequence of buffer calls. -/
def Buffer.run (b : Buffer) (ops : List WOp) : Buffer :=
  ops.foldl Buffer.step b

/-- Number of characters an op appends. -/
def WOp.chars : WOp → Nat
  | .write _ => 1
  | .writeStr s => s.length
  | .newline => 0

/-- Total number of characters a call sequence appends. -/
def charCount (ops : List WOp) : Nat := (ops.map WOp.chars).sum

/-- The op is a pure write containing no newline code points. -/
def WOp.noNL : WOp → Bool
  | .write c => c != 10
  | .writeStr s => !(s.contains 10)
  | .newline => false

/-- Well-formedness of a buffer state, as maintained by the source operations:
at least one row, `starts` capacity covers the rows, `starts[0] = 0` (never
written), the recorded line starts are monotone, the last recorded start is at
most the write index, the write index is within capacity, capacity is positive,
and the three parallel data arrays have equal capacity. -/
def WF (b : Buffer) : Prop :=
  1 ≤ b.h ∧ b.h ≤ b.starts.size ∧ aget b.starts 0 = 0 ∧
  (∀ j, j < b.h → ∀ k, k < b.h → j ≤ k → aget b.starts j ≤ aget b.starts k) ∧
  aget b.starts (b.h - 1) ≤ b.i ∧
  b.i ≤ b.buffer.size ∧ 0 < b.buffer.size ∧
  b.colors.size = b.buffer.size ∧ b.styles.size = b.buffer.size

instance (b : Buffer) : Decidable (WF b) := by
  unfold WF
  infer_instance

/-- The growth-and-store tail of `writeCharCode` (everything after the forced
line break check), split out so that proofs can treat the wrap and no-wrap
paths uniformly. -/
def Buffer.appendStep (b : Buffer) (x : Nat) : Buffer :=
  let b2 :=
    if b.buffer.size = b.i then
      { b with
        buffer := grow b.buffer, styles := grow b.styles,
        colors := grow b.colors }
    else b
  { b2 with
    styles := aset b2.styles b2.i (b2.style % 256),
    colors := aset b2.colors b2.i (b2.color % 65536),
    buffer := aset b2.buffer b2.i (x % 256),
    i := b2.i + 1,
    version := b2.version + 1 }

/-- Buffer states reachable from the constructor through the public mutating
operations. -/
inductive Reachable : Buffer → Prop where
  | new (columns : Nat) : Reachable (Buffer.new columns)
  | write {b : Buffer} (c : Nat) : Reachable b → Reachable (b.writeCharCode c)
  | str {b : Buffer} (s : List Nat) : Reachable b → Reachable (b.writeString s)
  | nl {b : Buffer} : Reachable b → Reachable b.newLine
  | clr {b : Buffer} : Reachable b → Reachable b.clear

/-- Glyph count per style variant (`Screen.glyphCount = 256`). -/
def glyphCount : Nat := 256

/-- JS `(a % b) | 0` on nonnegative integers: `NaN | 0 = 0` when `b = 0`. -/
def jsMod (a b : Nat) : Nat := if b = 0 then 0 else a % b

/-- JS `(a / b) | 0` on nonnegative integers: `Infinity | 0 = 0` and
`NaN | 0 = 0` when `b = 0`. -/
def jsDiv (a b : Nat) : Nat := if b = 0 then 0 else a / b

/-- The viewport renderer (`Terminal.Screen`).  Only the state the claims
mention is modeled: the CPU-side tilemap array `screenBuffer` (size
`w * h * 4`), grid size `w`/`h`, cursor `x`/`y`, active `color`/`style`, the
glyph atlas column count `tileColumns` and the `dirty` flag.  The GL context,
canvases and textures are host resources outside the model. -/
structure Screen where
  screenBuffer : Array Nat
  w : Nat
  h : Nat
  x : Int
  y : Int
  color : Nat
  style : Nat
  tileColumns : Nat
  dirty : Bool
deriving DecidableEq

/-- Source method `Screen.invalidate`. -/
def Screen.invalidate (s : Screen) : Screen := { s with dirty := true }

/-- Source method `Screen.moveTo`: clamps both cursor coordinates with
`clamp(v | 0, 0, w)` and `clamp(v | 0, 0, h)`. -/
def Screen.moveTo (s : Screen) (px py : Int) : Screen :=
  { s with x := clamp px 0 (s.w : Int), y := clamp py 0 (s.h : Int) }

/-- Source method `Screen.writeCharCode`: drops the write when the cursor is
outside the grid, otherwise stores the glyph tile coordinates and the packed
color at the cursor cell and advances the cursor. -/
def Screen.writeCharCode (s : Screen) (c : Nat) : Screen :=
  if s.x ≥ (s.w : Int) ∨ s.x < 0 ∨ s.y ≥ (s.h : Int) ∨ s.y < 0 then s
  else
    let s1 := s.invalidate
    let cc := c + glyphCount * s1.style
    let idx := (s1.w * s1.y.toNat + s1.x.toNat) * 4
    let nb :=
      aset (aset (aset (aset s1.screenBuffer idx (jsMod cc s1.tileColumns % 256))
        (idx + 1) (jsDiv cc s1.tileColumns % 256))
        (idx + 2) (s1.color % 256))
        (idx + 3) (s1.color / 256 % 256)
    let s2 := { s1 with screenBuffer := nb }
    if s2.x < (s2.w : Int) then { s2 with x := s2.x + 1 } else s2

/-- Source method `Screen.writeString`. -/
def Screen.writeString (s : Screen) (cs : List Nat) : Screen :=
  cs.foldl Screen.writeCharCode s

/-- Source method `Screen.putChar`: clamps the target cell coordinates into
`[0, w] x [0, h]` and stores the glyph tile coordinates and packed color. -/
def Screen.putChar (s : Screen) (c : Nat) (px py : Int) (color style : Nat) :
    Screen :=
  let xv := clamp px 0 (s.w : Int)
  let yv := clamp py 0 (s.h : Int)
  let idx := (yv.toNat * s.w + xv.toNat) * 4
  let cc := c + glyphCount * style
  let nb :=
    aset (aset (aset (aset s.screenBuffer idx (jsMod cc s.tileColumns % 256))
      (idx + 1) (jsDiv cc s.tileColumns % 256))
      (idx + 2) (color % 256))
      (idx + 3) (color / 256 % 256)
  { s with screenBuffer := nb }

/-- The inner (per-character) loop of `Screen.writeBuffer`: iterate
`x = 0, 1, ...` for the given number of iterations, stopping early when
`p > buffer.i` (the source `break`). -/
def Screen.wbInner (buf : Buffer) (srow sxv dxv dyv yv : Int) :
    Nat → Int → Screen → Screen
  | 0, _, s => s
  | n + 1, xv, s =>
    let p := srow + sxv + xv
    if (buf.i : Int) < p then s
    else
      Screen.wbInner buf srow sxv dxv dyv yv n (xv + 1)
        (s.putChar (aget buf.buffer p.toNat) (dxv + xv) (dyv + yv)
          (aget buf.colors p.toNat) (aget buf.styles p.toNat))

/-- The outer (per-row) loop of `Screen.writeBuffer`: for each row, the source
span end is `buffer.i` for the last recorded row and `starts[sy + y + 1]`
otherwise; the copied length is `min(e - s - sx, w)`. -/
def Screen.wbOuter (buf : Buffer) (sxv syv wv dxv dyv : Int) :
    Nat → Int → Screen → Screen
  | 0, _, s => s
  | n + 1, yv, s =>
    let srow : Int := (aget buf.starts (syv + yv).toNat : Int)
    let e : Int :=
      if syv + yv + 1 = (buf.h : Int) then (buf.i : Int)
      else (aget buf.starts (syv + yv + 1).toNat : Int)
    let l := min (e - srow - sxv) wv
    Screen.wbOuter buf sxv syv wv dxv dyv n (yv + 1)
      (Screen.wbInner buf srow sxv dxv dyv yv l.toNat 0 s)

/-- Source method `Screen.writeBuffer(buffer, sx, sy, sw, sh)` (source defaults
`sw = sh = 1024`): clamps the source rectangle against the buffer dimensions
and the destination against the screen grid at the cursor, then copies
row-by-row via `putChar`. -/
def Screen.writeBuffer (s : Screen) (buf : Buffer) (sx sy sw sh : Int) :
    Screen :=
  let dxv := s.x
  let dyv := s.y
  let sxv := clamp sx 0 ((buf.w : Int) - 1)
  let syv := clamp sy 0 ((buf.h : Int) - 1)
  let swv := clamp sw 0 ((buf.w : Int) - sxv)
  let shv := clamp sh 0 ((buf.h : Int) - syv)
  let wv := min swv ((s.w : Int) - dxv)
  let hv := min shv ((s.h : Int) - dyv)
  (Screen.wbOuter buf sxv syv wv dxv dyv hv.toNat 0 s).invalidate

/-- Cursor lies in the closed box `[0, w] x [0, h]` (the range `moveTo`
actually clamps to). -/
def Screen.cursorInBox (s : Screen) : Prop :=
  0 ≤ s.x ∧ s.x ≤ (s.w : Int) ∧ 0 ≤ s.y ∧ s.y ≤ (s.h : Int)

instance (s : Screen) : Decidable s.cursorInBox := by
  unfold Screen.cursorInBox
  infer_instance

/-- The scrollable binding of a `Buffer` to a `Screen` (`Terminal.View`).
Scroll offsets are JS numbers that can be fractional (wheel deltas are divided
by 40), hence `Rat`. -/
structure View where
  screen : Screen
  buffer : Buffer
  version : Nat
  x : Rat
  y : Rat

/-- Source method `View.scroll`: clamp the new offsets against the buffer and
screen dimensions and force a re-render by resetting `version`. -/
def View.scroll (v : View) (dx dy : Rat) : View :=
  { v with
    y := clamp (v.y + dy) 0 ((v.buffer.h : Rat) - (v.screen.h : Rat)),
    x := clamp (v.x + dx) 0 ((v.buffer.w : Rat) - (v.screen.w : Rat)),
    version := 0 }

/-- Correspondence between two buffer states that agree on everything the
write operations can observe through the write index, row bookkeeping and the
`buffer`/`colors` channels, regardless of backing capacities: same counters,
same active color, same recorded line starts below `h` and same stored data
and colors below `i`.  (The active style feeds only the `styles` channel and
no branch, so it is deliberately not related.)  Capacity facts are carried so
the relation is preserved across growth. -/
structure SimR (b1 b2 : Buffer) : Prop where
  ieq : b1.i = b2.i
  heq : b1.h = b2.h
  hpos : 1 ≤ b1.h
  peq : b1.previousMaxLineWidth = b2.previousMaxLineWidth
  ceq : b1.columns = b2.columns
  coleq : b1.color = b2.color
  starts_eq : ∀ j, j < b1.h → aget b1.starts j = aget b2.starts j
  hsz1 : b1.h ≤ b1.starts.size
  hsz2 : b2.h ≤ b2.starts.size
  data_eq : ∀ j, j < b1.i → aget b1.buffer j = aget b2.buffer j
  col_eq : ∀ j, j < b1.i → aget b1.colors j = aget b2.colors j
  isz1 : b1.i ≤ b1.buffer.size
  isz2 : b2.i ≤ b2.buffer.size
  dpos1 : 0 < b1.buffer.size
  dpos2 : 0 < b2.buffer.size
  cs1 : b1.colors.size = b1.buffer.size
  cs2 : b2.colors.size = b2.buffer.size

/-- A cleared buffer with column cap 2 and small backing capacity (capacity
only affects growth, which the traces below never trigger). -/
def bufCap2 : Buffer :=
  ⟨#[0, 0, 0, 0], #[0, 0, 0, 0], #[0, 0, 0, 0], #[0, 0, 0, 0],
    1, 2, 0, 65535, 0, 0, 0⟩

/-- A buffer holding the single row "AB" (column cap 8), the state reached by
writing "AB" into a cleared buffer, with small backing capacity. -/
def bufAB : Buffer :=
  ⟨#[0, 0, 0, 0], #[65, 66, 0, 0], #[0, 0, 0, 0], #[65535, 65535, 0, 0],
    1, 8, 2, 65535, 0, 0, 2⟩

/-- A buffer whose current row has reached its column cap 2 (the state after
writing "AB" with cap 2). -/
def bufAtCap : Buffer :=
  ⟨#[0, 0, 0, 0], #[65, 66, 0, 0], #[0, 0, 0, 0], #[65535, 65535, 0, 0],
    1, 2, 2, 65535, 0, 0, 2⟩

/-- A buffer holding "AB" followed by a newline: two recorded rows, the last
one empty (`starts = [0, 2]`, `i = 2`). -/
def bufABnl : Buffer :=
  ⟨#[0, 2, 0, 0], #[65, 66, 0, 0], #[0, 0, 0, 0], #[65535, 65535, 0, 0],
    2, 8, 2, 65535, 0, 0, 3⟩

/-- A freshly constructed buffer whose active color was then set to 0 by the
exposed `color` setter. -/
def bufColor0 : Buffer := { Buffer.new 8 with color := 0 }

/-- A 4 x 4 screen with a zeroed tilemap and the cursor at the origin. -/
def scr4 : Screen := ⟨Array.mkArray 64 0, 4, 4, 0, 0, 65535, 0, 128, false⟩

/-- A 4 x 4 screen whose cursor sits at `x = w` (reachable via `moveTo`). -/
def scrEdge : Screen := ⟨Array.mkArray 64 0, 4, 4, 4, 0, 65535, 0, 128, false⟩

/-- A view binding `bufAB` to `scr4` at scroll offset (0, 0). -/
def viewEx : View := ⟨scr4, bufAB, 0, 0, 0⟩


theorem newLine_h (b : Buffer) : (b.newLine).h = b.h + 1 := rfl

theorem newLine_i (b : Buffer) : (b.newLine).i = b.i := rfl

theorem newLine_version (b : Buffer) : (b.newLine).version = b.version + 1 := rfl

theorem newLine_buffer (b : Buffer) : (b.newLine).buffer = b.buffer := rfl

theorem newLine_colors (b : Buffer) : (b.newLine).colors = b.colors := rfl

theorem newLine_styles (b : Buffer) : (b.newLine).styles = b.styles := rfl

theorem newLine_columns (b : Buffer) : (b.newLine).columns = b.columns := rfl

theorem newLine_color (b : Buffer) : (b.newLine).color = b.color := rfl

theorem newLine_style (b : Buffer) : (b.newLine).style = b.style := rfl

theorem aget_newLine_starts_ne (b : Buffer) (j : Nat) (hj : j ≠ b.h) :
    aget (b.newLine).starts j = aget b.starts j := by
  unfold Buffer.newLine
  dsimp only
  rw [aget_aset_ne _ _ _ _ (fun h => hj h.symm)]
  by_cases hc : b.starts.size = b.h
  · rw [if_pos hc, aget_grow]
  · rw [if_neg hc]

theorem aget_newLine_starts_self (b : Buffer) (hpos : 1 ≤ b.h)
    (hle : b.h ≤ b.starts.size) :
    aget (b.newLine).starts b.h = b.i := by
  unfold Buffer.newLine
  dsimp only
  by_cases hc : b.starts.size = b.h
  · rw [if_pos hc, aget_aset_self]
    rw [size_grow, hc]
    omega
  · rw [if_neg hc, aget_aset_self]
    omega

theorem newLine_starts_size (b : Buffer) (hpos : 1 ≤ b.h)
    (hle : b.h ≤ b.starts.size) :
    b.h + 1 ≤ (b.newLine).starts.size := by
  unfold Buffer.newLine
  dsimp only
  rw [size_aset]
  by_cases hc : b.starts.size = b.h
  · rw [if_pos hc, size_grow, hc]
    omega
  · rw [if_neg hc]
    omega

theorem WF_newLine (b : Buffer) (hWF : WF b) : WF b.newLine := by
  obtain ⟨h1, h2, h3, h4, h5, h6, h7, h8, h9⟩ := hWF
  refine ⟨?_, ?_, ?_, ?_, ?_, ?_, ?_, ?_, ?_⟩
  · rw [newLine_h]
    omega
  · rw [newLine_h]
    exact newLine_starts_size b h1 h2
  · rw [aget_newLine_starts_ne b 0 (by omega)]
    exact h3
  · intro j hj k hk hjk
    rw [newLine_h] at hj hk
    by_cases hkh : k = b.h
    · subst hkh
      rw [aget_newLine_starts_self b h1 h2]
      by_cases hjh : j = b.h
      · rw [hjh, aget_newLine_starts_self b h1 h2]
      · rw [aget_newLine_starts_ne b j hjh]
        calc aget b.starts j ≤ aget b.starts (b.h - 1) :=
              h4 j (by omega) (b.h - 1) (by omega) (by omega)
          _ ≤ b.i := h5
    · have hkb : k < b.h := by omega
      rw [aget_newLine_starts_ne b k hkh, aget_newLine_starts_ne b j (by omega)]
      exact h4 j (by omega) k hkb hjk
  · rw [newLine_h, newLine_i]
    have : b.h + 1 - 1 = b.h := by omega
    rw [this, aget_newLine_starts_self b h1 h2]
  · rw [newLine_i, newLine_buffer]
    exact h6
  · rw [newLine_buffer]
    exact h7
  · rw [newLine_colors, newLine_buffer]
    exact h8
  · rw [newLine_styles, newLine_buffer]
    exact h9

theorem WF_clear (b : Buffer) (hWF : WF b) : WF b.clear := by
  obtain ⟨h1, h2, h3, h4, h5, h6, h7, h8, h9⟩ := hWF
  refine ⟨le_refl 1, ?_, h3, ?_, ?_, Nat.zero_le _, h7, h8, h9⟩
  · show 1 ≤ b.starts.size
    omega
  · intro j hj k hk hjk
    have hj1 : j < 1 := hj
    have hk1 : k < 1 := hk
    have hj0 : j = 0 := by omega
    have hk0 : k = 0 := by omega
    subst hj0
    subst hk0
    exact le_refl _
  · show aget b.starts 0 ≤ 0
    exact h3.le

theorem writeCharCode_i (b : Buffer) (x : Nat) :
    (b.writeCharCode x).i = b.i + 1 := by
  unfold Buffer.writeCharCode
  dsimp only
  split <;> split <;> rfl

theorem writeCharCode_columns (b : Buffer) (x : Nat) :
    (b.writeCharCode x).columns = b.columns := by
  unfold Buffer.writeCharCode
  dsimp only
  split <;> split <;> rfl

theorem writeCharCode_color (b : Buffer) (x : Nat) :
    (b.writeCharCode x).color = b.color := by
  unfold Buffer.writeCharCode
  dsimp only
  split <;> split <;> rfl

theorem writeCharCode_style (b : Buffer) (x : Nat) :
    (b.writeCharCode x).style = b.style := by
  unfold Buffer.writeCharCode
  dsimp only
  split <;> split <;> rfl

theorem writeCharCode_version_gt (b : Buffer) (x : Nat) :
    b.version < (b.writeCharCode x).version := by
  unfold Buffer.writeCharCode
  dsimp only
  split <;> split <;> simp [Buffer.newLine] <;> omega


theorem appendStep_i (b : Buffer) (x : Nat) : (b.appendStep x).i = b.i + 1 := by
  unfold Buffer.appendStep
  dsimp only
  split <;> rfl

theorem appendStep_h (b : Buffer) (x : Nat) : (b.appendStep x).h = b.h := by
  unfold Buffer.appendStep
  dsimp only
  split <;> rfl

theorem appendStep_starts (b : Buffer) (x : Nat) :
    (b.appendStep x).starts = b.starts := by
  unfold Buffer.appendStep
  dsimp only
  split <;> rfl

theorem appendStep_previousMaxLineWidth (b : Buffer) (x : Nat) :
    (b.appendStep x).previousMaxLineWidth = b.previousMaxLineWidth := by
  unfold Buffer.appendStep
  dsimp only
  split <;> rfl

theorem appendStep_columns (b : Buffer) (x : Nat) :
    (b.appendStep x).columns = b.columns := by
  unfold Buffer.appendStep
  dsimp only
  split <;> rfl

theorem appendStep_color (b : Buffer) (x : Nat) :
    (b.appendStep x).color = b.color := by
  unfold Buffer.appendStep
  dsimp only
  split <;> rfl

theorem appendStep_style (b : Buffer) (x : Nat) :
    (b.appendStep x).style = b.style := by
  unfold Buffer.appendStep
  dsimp only
  split <;> rfl

theorem appendStep_version (b : Buffer) (x : Nat) :
    (b.appendStep x).version = b.version + 1 := by
  unfold Buffer.appendStep
  dsimp only
  split <;> rfl

theorem writeCharCode_eq_ite (b : Buffer) (x : Nat) :
    b.writeCharCode x =
      if b.i - aget b.starts (b.h - 1) ≥ b.columns then (b.newLine).appendStep x
      else b.appendStep x := by
  unfold Buffer.writeCharCode Buffer.appendStep
  dsimp only
  by_cases hw : b.i - aget b.starts (b.h - 1) ≥ b.columns <;> simp only [hw, if_true, if_false]

theorem aget_appendStep_buffer_ne (b : Buffer) (x j : Nat) (hj : j ≠ b.i) :
    aget (b.appendStep x).buffer j = aget b.buffer j := by
  unfold Buffer.appendStep
  dsimp only
  split <;> rename_i hg
  · rw [aget_aset_ne _ _ _ _ (fun h => hj h.symm), aget_grow]
  · rw [aget_aset_ne _ _ _ _ (fun h => hj h.symm)]

theorem aget_appendStep_colors_ne (b : Buffer) (x j : Nat) (hj : j ≠ b.i) :
    aget (b.appendStep x).colors j = aget b.colors j := by
  unfold Buffer.appendStep
  dsimp only
  split <;> rename_i hg
  · rw [aget_aset_ne _ _ _ _ (fun h => hj h.symm), aget_grow]
  · rw [aget_aset_ne _ _ _ _ (fun h => hj h.symm)]

theorem aget_appendStep_styles_ne (b : Buffer) (x j : Nat) (hj : j ≠ b.i) :
    aget (b.appendStep x).styles j = aget b.styles j := by
  unfold Buffer.appendStep
  dsimp only
  split <;> rename_i hg
  · rw [aget_aset_ne _ _ _ _ (fun h => hj h.symm), aget_grow]
  · rw [aget_aset_ne _ _ _ _ (fun h => hj h.symm)]

theorem aget_appendStep_buffer_self (b : Buffer) (x : Nat)
    (hile : b.i ≤ b.buffer.size) (hpos : 0 < b.buffer.size) :
    aget (b.appendStep x).buffer b.i = x % 256 := by
  unfold Buffer.appendStep
  dsimp only
  split <;> rename_i hg <;> try dsimp only
  · rw [aget_aset_self]
    rw [size_grow]
    omega
  · rw [aget_aset_self]
    omega

theorem aget_appendStep_colors_self (b : Buffer) (x : Nat)
    (hile : b.i ≤ b.buffer.size) (hpos : 0 < b.buffer.size)
    (hcs : b.colors.size = b.buffer.size) :
    aget (b.appendStep x).colors b.i = b.color % 65536 := by
  unfold Buffer.appendStep
  dsimp only
  split <;> rename_i hg <;> try dsimp only
  · rw [aget_aset_self]
    rw [size_grow]
    omega
  · rw [aget_aset_self]
    omega

theorem aget_appendStep_styles_self (b : Buffer) (x : Nat)
    (hile : b.i ≤ b.buffer.size) (hpos : 0 < b.buffer.size)
    (hss : b.styles.size = b.buffer.size) :
    aget (b.appendStep x).styles b.i = b.style % 256 := by
  unfold Buffer.appendStep
  dsimp only
  split <;> rename_i hg <;> try dsimp only
  · rw [aget_aset_self]
    rw [size_grow]
    omega
  · rw [aget_aset_self]
    omega

theorem WF_appendStep (b : Buffer) (x : Nat) (hWF : WF b) :
    WF (b.appendStep x) := by
  obtain ⟨h1, h2, h3, h4, h5, h6, h7, h8, h9⟩ := hWF
  unfold Buffer.appendStep
  dsimp only
  split <;> rename_i hg
  · refine ⟨h1, ?_, h3, h4, ?_, ?_, ?_, ?_, ?_⟩
    · show b.h ≤ b.starts.size
      exact h2
    · show aget b.starts (b.h - 1) ≤ b.i + 1
      omega
    · show b.i + 1 ≤ (aset (grow b.buffer) b.i (x % 256)).size
      rw [size_aset, size_grow]
      omega
    · show 0 < (aset (grow b.buffer) b.i (x % 256)).size
      rw [size_aset, size_grow]
      omega
    · show (aset (grow b.colors) b.i (b.color % 65536)).size =
        (aset (grow b.buffer) b.i (x % 256)).size
      rw [size_aset, size_aset, size_grow, size_grow, h8]
    · show (aset (grow b.styles) b.i (b.style % 256)).size =
        (aset (grow b.buffer) b.i (x % 256)).size
      rw [size_aset, size_aset, size_grow, size_grow, h9]
  · refine ⟨h1, h2, h3, h4, ?_, ?_, ?_, ?_, ?_⟩
    · show aget b.starts (b.h - 1) ≤ b.i + 1
      omega
    · show b.i + 1 ≤ (aset b.buffer b.i (x % 256)).size
      rw [size_aset]
      omega
    · show 0 < (aset b.buffer b.i (x % 256)).size
      rw [size_aset]
      omega
    · show (aset b.colors b.i (b.color % 65536)).size =
        (aset b.buffer b.i (x % 256)).size
      rw [size_aset, size_aset, h8]
    · show (aset b.styles b.i (b.style % 256)).size =
        (aset b.buffer b.i (x % 256)).size
      rw [size_aset, size_aset, h9]

theorem WF_writeCharCode (b : Buffer) (x : Nat) (hWF : WF b) :
    WF (b.writeCharCode x) := by
  rw [writeCharCode_eq_ite]
  split
  · exact WF_appendStep _ _ (WF_newLine b hWF)
  · exact WF_appendStep _ _ hWF

theorem writeString_nil (b : Buffer) : b.writeString [] = b := rfl

theorem writeString_cons (b : Buffer) (c : Nat) (s : List Nat) :
    b.writeString (c :: s) =
      (if c = 10 then b.newLine else b.writeCharCode c).writeString s := rfl

theorem WF_writeString (b : Buffer) (s : List Nat) (hWF : WF b) :
    WF (b.writeString s) := by
  induction s generalizing b with
  | nil => exact hWF
  | cons c s ih =>
    rw [writeString_cons]
    split
    · exact ih _ (WF_newLine b hWF)
    · exact ih _ (WF_writeCharCode b c hWF)

theorem WF_step (b : Buffer) (op : WOp) (hWF : WF b) : WF (b.step op) := by
  cases op with
  | write c => exact WF_writeCharCode b c hWF
  | writeStr s => exact WF_writeString b s hWF
  | newline => exact WF_newLine b hWF

theorem WF_run (b : Buffer) (ops : List WOp) (hWF : WF b) : WF (b.run ops) := by
  induction ops generalizing b with
  | nil => exact hWF
  | cons op ops ih => exact ih _ (WF_step b op hWF)

theorem WF_new (columns : Nat) : WF (Buffer.new columns) := by
  refine ⟨le_refl 1, ?_, ?_, ?_, ?_, ?_, ?_, ?_, ?_⟩
  · show 1 ≤ (Array.mkArray 32 (0 : Nat)).size
    simp
  · show aget (Array.mkArray 32 0) 0 = 0
    rw [aget_mkArray]
    simp
  · intro j hj k hk hjk
    have hj1 : j < 1 := hj
    have hk1 : k < 1 := hk
    have hj0 : j = 0 := by omega
    have hk0 : k = 0 := by omega
    subst hj0
    subst hk0
    exact le_refl _
  · show aget (Array.mkArray 32 0) 0 ≤ 0
    rw [aget_mkArray]
    simp
  · show 0 ≤ (Array.mkArray 1048576 (0 : Nat)).size
    omega
  · show 0 < (Array.mkArray 1048576 (0 : Nat)).size
    simp
  · show (Array.mkArray 1048576 (0 : Nat)).size =
      (Array.mkArray 1048576 (0 : Nat)).size
    rfl
  · show (Array.mkArray 1048576 (0 : Nat)).size =
      (Array.mkArray 1048576 (0 : Nat)).size
    rfl

theorem WF_reachable (b : Buffer) (hr : Reachable b) : WF b := by
  induction hr with
  | new columns => exact WF_new columns
  | write c _ ih => exact WF_writeCharCode _ c ih
  | str s _ ih => exact WF_writeString _ s ih
  | nl _ ih => exact WF_newLine _ ih
  | clr _ ih => exact WF_clear _ ih


theorem writeCharCode_of_wrap (b : Buffer) (x : Nat)
    (hcap : b.i - aget b.starts (b.h - 1) ≥ b.columns) :
    b.writeCharCode x = (b.newLine).appendStep x := by
  rw [writeCharCode_eq_ite, if_pos hcap]

theorem writeCharCode_of_no_wrap (b : Buffer) (x : Nat)
    (hcap : ¬ b.i - aget b.starts (b.h - 1) ≥ b.columns) :
    b.writeCharCode x = b.appendStep x := by
  rw [writeCharCode_eq_ite, if_neg hcap]

/-- C5: when `writeCharCode(c)` is called with the current row length at the
configured column cap, a line break is performed first and `c` is appended as
the first (and only) character of the new row: the row count grows by one, the
new row starts at the old write index, the character is stored there (truncated
to a byte by the `Uint8Array`, never dropped), and the new row has length 1.
The operation is total: no error is raised. -/
theorem c5_cap_forces_wrap (b : Buffer) (x : Nat) (hWF : WF b)
    (hcap : b.i - aget b.starts (b.h - 1) ≥ b.columns) :
    (b.writeCharCode x).h = b.h + 1 ∧
    aget (b.writeCharCode x).starts ((b.writeCharCode x).h - 1) = b.i ∧
    (b.writeCharCode x).i = b.i + 1 ∧
    aget (b.writeCharCode x).buffer b.i = x % 256 ∧
    (b.writeCharCode x).i - aget (b.writeCharCode x).starts
      ((b.writeCharCode x).h - 1) = 1 := by
  obtain ⟨h1, h2, h3, h4, h5, h6, h7, h8, h9⟩ := hWF
  have hself : aget (b.newLine).starts b.h = b.i := aget_newLine_starts_self b h1 h2
  rw [writeCharCode_of_wrap b x hcap]
  have hh : ((b.newLine).appendStep x).h = b.h + 1 := by
    rw [appendStep_h, newLine_h]
  have hst : aget ((b.newLine).appendStep x).starts
      (((b.newLine).appendStep x).h - 1) = b.i := by
    rw [hh, appendStep_starts]
    simpa using hself
  have hi : ((b.newLine).appendStep x).i = b.i + 1 := by
    rw [appendStep_i, newLine_i]
  refine ⟨hh, hst, hi, ?_, ?_⟩
  · have hv := aget_appendStep_buffer_self (b.newLine) x
      (by rw [newLine_i, newLine_buffer]; exact h6)
      (by rw [newLine_buffer]; exact h7)
    rw [newLine_i] at hv
    exact hv
  · rw [hi, hst]
    omega

/-- C6 (amended): in every buffer state reachable from construction through
`writeCharCode`, `writeString`, `newLine` and `clear`, the recorded line starts
`starts[0..h-1]` form a non-decreasing (not strictly increasing) sequence, and
`i >= starts[h-1]`. -/
theorem c6_lineStarts_monotone (b : Buffer) (hr : Reachable b) :
    (∀ j, j < b.h → ∀ k, k < b.h → j ≤ k →
      aget b.starts j ≤ aget b.starts k) ∧
    aget b.starts (b.h - 1) ≤ b.i := by
  obtain ⟨_, _, _, h4, h5, _⟩ := WF_reachable b hr
  exact ⟨h4, h5⟩

theorem aget_writeCharCode_buffer_lt (b : Buffer) (x j : Nat) (hj : j < b.i) :
    aget (b.writeCharCode x).buffer j = aget b.buffer j := by
  rw [writeCharCode_eq_ite]
  split
  · rw [aget_appendStep_buffer_ne _ _ _ (by rw [newLine_i]; omega), newLine_buffer]
  · rw [aget_appendStep_buffer_ne _ _ _ (by omega)]

theorem aget_writeCharCode_colors_lt (b : Buffer) (x j : Nat) (hj : j < b.i) :
    aget (b.writeCharCode x).colors j = aget b.colors j := by
  rw [writeCharCode_eq_ite]
  split
  · rw [aget_appendStep_colors_ne _ _ _ (by rw [newLine_i]; omega), newLine_colors]
  · rw [aget_appendStep_colors_ne _ _ _ (by omega)]

theorem aget_writeCharCode_styles_lt (b : Buffer) (x j : Nat) (hj : j < b.i) :
    aget (b.writeCharCode x).styles j = aget b.styles j := by
  rw [writeCharCode_eq_ite]
  split
  · rw [aget_appendStep_styles_ne _ _ _ (by rw [newLine_i]; omega), newLine_styles]
  · rw [aget_appendStep_styles_ne _ _ _ (by omega)]

theorem writeCharCode_i_eq (b : Buffer) (x : Nat) :
    (b.writeCharCode x).i = b.i + 1 := writeCharCode_i b x

theorem i_le_writeString (b : Buffer) (s : List Nat) :
    b.i ≤ (b.writeString s).i := by
  induction s generalizing b with
  | nil => exact le_refl _
  | cons c s ih =>
    rw [writeString_cons]
    split
    · have := ih b.newLine
      rw [newLine_i] at this
      exact this
    · have := ih (b.writeCharCode c)
      rw [writeCharCode_i] at this
      omega

theorem i_le_step (b : Buffer) (op : WOp) : b.i ≤ (b.step op).i := by
  cases op with
  | write c =>
    rw [Buffer.step, writeCharCode_i]
    omega
  | writeStr s => exact i_le_writeString b s
  | newline =>
    rw [Buffer.step, newLine_i]

theorem writeString_preserves_below (b : Buffer) (s : List Nat) (j : Nat)
    (hj : j < b.i) :
    aget (b.writeString s).buffer j = aget b.buffer j ∧
    aget (b.writeString s).colors j = aget b.colors j ∧
    aget (b.writeString s).styles j = aget b.styles j := by
  induction s generalizing b with
  | nil => exact ⟨rfl, rfl, rfl⟩
  | cons c s ih =>
    rw [writeString_cons]
    split
    · have := ih b.newLine (by rw [newLine_i]; exact hj)
      rw [newLine_buffer, newLine_colors, newLine_styles] at this
      exact this
    · have := ih (b.writeCharCode c) (by rw [writeCharCode_i]; omega)
      rw [aget_writeCharCode_buffer_lt b c j hj,
        aget_writeCharCode_colors_lt b c j hj,
        aget_writeCharCode_styles_lt b c j hj] at this
      exact this

theorem step_preserves_below (b : Buffer) (op : WOp) (j : Nat) (hj : j < b.i) :
    aget (b.step op).buffer j = aget b.buffer j ∧
    aget (b.step op).colors j = aget b.colors j ∧
    aget (b.step op).styles j = aget b.styles j := by
  cases op with
  | write c =>
    exact ⟨aget_writeCharCode_buffer_lt b c j hj,
      aget_writeCharCode_colors_lt b c j hj,
      aget_writeCharCode_styles_lt b c j hj⟩
  | writeStr s => exact writeString_preserves_below b s j hj
  | newline => exact ⟨rfl, rfl, rfl⟩

/-- C7: for every buffer state and every subsequent sequence of write calls
(`writeCharCode`, `writeString`, `newLine` — in particular sequences that force
one or more doubling reallocations of the backing arrays), every previously
written character, color and style remains readable unchanged at its original
absolute index: growth never moves, drops or alters already-written cells. -/
theorem c7_growth_preserves (b : Buffer) (ops : List WOp) (j : Nat)
    (hj : j < b.i) :
    aget (b.run ops).buffer j = aget b.buffer j ∧
    aget (b.run ops).colors j = aget b.colors j ∧
    aget (b.run ops).styles j = aget b.styles j := by
  induction ops generalizing b with
  | nil => exact ⟨rfl, rfl, rfl⟩
  | cons op ops ih =>
    have hstep := step_preserves_below b op j hj
    have hrest := ih (b.step op) (lt_of_lt_of_le hj (i_le_step b op))
    exact ⟨hrest.1.trans hstep.1, hrest.2.1.trans hstep.2.1,
      hrest.2.2.trans hstep.2.2⟩

/-- C8 (amended): `writeCharCode` and `newLine` always leave `version`
strictly greater than before the call, but `clear()` resets `version` to 0
(so `clear` is a mutation after which the counter is not greater). -/
theorem c8_version (b : Buffer) (x : Nat) :
    b.version < (b.writeCharCode x).version ∧
    b.version < (b.newLine).version ∧
    (b.clear).version = 0 :=
  ⟨writeCharCode_version_gt b x, by rw [newLine_version]; omega, rfl⟩

/-- C10: `clear()` does not reset the active color or style: both survive the
call, and a character written right after `clear()` records the previously
active color and style (truncated to the element width of the backing typed
arrays), not the constructor defaults. -/
theorem c10_clear_keeps_color (b : Buffer) (x : Nat) (hWF : WF b) :
    (b.clear).color = b.color ∧ (b.clear).style = b.style ∧
    aget ((b.clear).writeCharCode x).colors 0 = b.color % 65536 ∧
    aget ((b.clear).writeCharCode x).styles 0 = b.style % 256 := by
  obtain ⟨c1, c2, c3, c4, c5, c6, c7, c8, c9⟩ := WF_clear b hWF
  refine ⟨rfl, rfl, ?_, ?_⟩
  · rw [writeCharCode_eq_ite]
    split
    · exact aget_appendStep_colors_self (b.clear).newLine x
        (Nat.zero_le _) c7 c8
    · exact aget_appendStep_colors_self (b.clear) x (Nat.zero_le _) c7 c8
  · rw [writeCharCode_eq_ite]
    split
    · exact aget_appendStep_styles_self (b.clear).newLine x
        (Nat.zero_le _) c7 c9
    · exact aget_appendStep_styles_self (b.clear) x (Nat.zero_le _) c7 c9


theorem writeCharCode_no_wrap_fields (b : Buffer) (x : Nat)
    (hcap : b.i - aget b.starts (b.h - 1) < b.columns) :
    (b.writeCharCode x).h = b.h ∧ (b.writeCharCode x).starts = b.starts ∧
    (b.writeCharCode x).previousMaxLineWidth = b.previousMaxLineWidth ∧
    (b.writeCharCode x).columns = b.columns := by
  rw [writeCharCode_of_no_wrap b x (by omega)]
  exact ⟨appendStep_h b x, appendStep_starts b x,
    appendStep_previousMaxLineWidth b x, appendStep_columns b x⟩

theorem writeString_noNL_fields (s : List Nat) (b : Buffer)
    (hnl : ∀ c ∈ s, c ≠ 10)
    (hcap : b.i - aget b.starts (b.h - 1) + s.length ≤ b.columns) :
    (b.writeString s).i = b.i + s.length ∧
    (b.writeString s).h = b.h ∧
    (b.writeString s).starts = b.starts ∧
    (b.writeString s).previousMaxLineWidth = b.previousMaxLineWidth ∧
    (b.writeString s).columns = b.columns := by
  induction s generalizing b with
  | nil => exact ⟨rfl, rfl, rfl, rfl, rfl⟩
  | cons c s ih =>
    rw [writeString_cons, if_neg (hnl c (by simp))]
    have hlen : (c :: s).length = s.length + 1 := by simp
    have hlt : b.i - aget b.starts (b.h - 1) < b.columns := by
      rw [hlen] at hcap
      omega
    obtain ⟨eh, est, ep, ec⟩ := writeCharCode_no_wrap_fields b c hlt
    have hi : (b.writeCharCode c).i = b.i + 1 := writeCharCode_i b c
    have hrest := ih (b.writeCharCode c) (fun d hd => hnl d (by simp [hd]))
      (by rw [hi, est, eh, ec]; rw [hlen] at hcap; omega)
    obtain ⟨r1, r2, r3, r4, r5⟩ := hrest
    rw [hi] at r1
    rw [est] at r3
    rw [eh] at r2
    rw [ep] at r4
    rw [ec] at r5
    refine ⟨?_, r2, r3, r4, r5⟩
    rw [r1, hlen]
    omega

theorem run_noNL_fields (ops : List WOp) (b : Buffer)
    (hnl : ∀ op ∈ ops, op.noNL = true)
    (hcap : b.i - aget b.starts (b.h - 1) + charCount ops ≤ b.columns) :
    (b.run ops).i = b.i + charCount ops ∧
    (b.run ops).h = b.h ∧ (b.run ops).starts = b.starts ∧
    (b.run ops).previousMaxLineWidth = b.previousMaxLineWidth ∧
    (b.run ops).columns = b.columns := by
  induction ops generalizing b with
  | nil => exact ⟨by simp [charCount, Buffer.run], rfl, rfl, rfl, rfl⟩
  | cons op ops ih =>
    have hcc : charCount (op :: ops) = op.chars + charCount ops := by
      simp [charCount]
    have hstep : b.run (op :: ops) = (b.step op).run ops := rfl
    cases op with
    | write c =>
      have hlt : b.i - aget b.starts (b.h - 1) < b.columns := by
        rw [hcc] at hcap
        simp [WOp.chars] at hcap
        omega
      obtain ⟨eh, est, ep, ec⟩ := writeCharCode_no_wrap_fields b c hlt
      have hi : (b.writeCharCode c).i = b.i + 1 := writeCharCode_i b c
      have hrest := ih (b.writeCharCode c) (fun d hd => hnl d (by simp [hd]))
        (by rw [hi, est, eh, ec]; rw [hcc] at hcap; simp [WOp.chars] at hcap; omega)
      rw [hstep]
      show ((b.writeCharCode c).run ops).i = b.i + charCount (WOp.write c :: ops) ∧ _
      obtain ⟨r1, r2, r3, r4, r5⟩ := hrest
      rw [hi] at r1
      rw [est] at r3
      rw [eh] at r2
      rw [ep] at r4
      rw [ec] at r5
      refine ⟨?_, r2, r3, r4, r5⟩
      rw [r1, hcc]
      simp [WOp.chars]
      omega
    | writeStr t =>
      have hnlt : ∀ d ∈ t, d ≠ 10 := by
        have hop := hnl (WOp.writeStr t) (by simp)
        simp [WOp.noNL] at hop
        intro d hd hd10
        exact hop (hd10 ▸ hd)
      have hcapt : b.i - aget b.starts (b.h - 1) + t.length ≤ b.columns := by
        rw [hcc] at hcap
        simp [WOp.chars] at hcap
        omega
      obtain ⟨e1, e2, e3, e4, e5⟩ := writeString_noNL_fields t b hnlt hcapt
      have hrest := ih (b.writeString t) (fun d hd => hnl d (by simp [hd]))
        (by rw [e1, e3, e2, e5]; rw [hcc] at hcap; simp [WOp.chars] at hcap; omega)
      rw [hstep]
      show ((b.writeString t).run ops).i = b.i + charCount (WOp.writeStr t :: ops) ∧ _
      obtain ⟨r1, r2, r3, r4, r5⟩ := hrest
      rw [e1] at r1
      rw [e3] at r3
      rw [e2] at r2
      rw [e4] at r4
      rw [e5] at r5
      refine ⟨?_, r2, r3, r4, r5⟩
      rw [r1, hcc]
      simp [WOp.chars]
      omega
    | newline =>
      have hop := hnl WOp.newline (by simp)
      simp [WOp.noNL] at hop

/-- C1 (amended): starting from a cleared (or fresh) buffer, for every
sequence of `writeCharCode`/`writeString` calls containing no newline code
points whose total character count does not exceed the configured column cap,
`w` afterwards equals the total number of characters written.  (Beyond the cap
the forced line break of `writeCharCode` caps `w` at the column limit, which
is what the counterexample exhibits.) -/
theorem c1_width_after_clear (b : Buffer) (ops : List WOp)
    (h0 : aget b.starts 0 = 0) (hnl : ∀ op ∈ ops, op.noNL = true)
    (hcap : charCount ops ≤ b.columns) :
    ((b.clear).run ops).w = charCount ops := by
  have hcap2 : (b.clear).i - aget (b.clear).starts ((b.clear).h - 1) +
      charCount ops ≤ (b.clear).columns := by
    show 0 - aget b.starts (1 - 1) + charCount ops ≤ b.columns
    simpa [h0] using hcap
  obtain ⟨r1, r2, r3, r4, _⟩ :=
    run_noNL_fields ops (b.clear) (fun op hop => hnl op hop) hcap2
  unfold Buffer.w
  rw [r1, r2, r3, r4]
  show max 0 (0 + charCount ops - aget b.starts (1 - 1)) = charCount ops
  rw [show (1 : Nat) - 1 = 0 from rfl, h0]
  omega


theorem newLine_previousMaxLineWidth (b : Buffer) :
    (b.newLine).previousMaxLineWidth =
      max b.previousMaxLineWidth (b.i - aget b.starts (b.h - 1)) := by
  unfold Buffer.newLine
  dsimp only
  split
  · rw [aget_grow]
  · rfl

theorem appendStep_buffer_size_ge (b : Buffer) (x : Nat) :
    b.buffer.size ≤ (b.appendStep x).buffer.size := by
  unfold Buffer.appendStep
  dsimp only
  split <;> try dsimp only
  · rw [size_aset, size_grow]
    omega
  · rw [size_aset]

theorem appendStep_i_le_size (b : Buffer) (x : Nat)
    (hile : b.i ≤ b.buffer.size) (hpos : 0 < b.buffer.size) :
    b.i + 1 ≤ (b.appendStep x).buffer.size := by
  unfold Buffer.appendStep
  dsimp only
  split <;> rename_i hg <;> try dsimp only
  · rw [size_aset, size_grow]
    omega
  · rw [size_aset]
    omega

theorem appendStep_colors_size (b : Buffer) (x : Nat)
    (hcs : b.colors.size = b.buffer.size) :
    (b.appendStep x).colors.size = (b.appendStep x).buffer.size := by
  unfold Buffer.appendStep
  dsimp only
  split <;> try dsimp only
  · rw [size_aset, size_aset, size_grow, size_grow, hcs]
  · rw [size_aset, size_aset, hcs]

theorem appendStep_styles_size (b : Buffer) (x : Nat)
    (hss : b.styles.size = b.buffer.size) :
    (b.appendStep x).styles.size = (b.appendStep x).buffer.size := by
  unfold Buffer.appendStep
  dsimp only
  split <;> try dsimp only
  · rw [size_aset, size_aset, size_grow, size_grow, hss]
  · rw [size_aset, size_aset, hss]

theorem SimR.newLine {b1 b2 : Buffer} (hs : SimR b1 b2) :
    SimR b1.newLine b2.newLine := by
  have e1 : aget b1.newLine.starts b1.h = b1.i :=
    aget_newLine_starts_self b1 hs.hpos hs.hsz1
  have e2 : aget b2.newLine.starts b2.h = b2.i :=
    aget_newLine_starts_self b2 (hs.heq ▸ hs.hpos) hs.hsz2
  have hlast : aget b1.starts (b1.h - 1) = aget b2.starts (b2.h - 1) := by
    rw [← hs.heq]
    exact hs.starts_eq (b1.h - 1) (by have := hs.hpos; omega)
  refine ⟨?_, ?_, ?_, ?_, ?_, ?_, ?_, ?_, ?_, ?_, ?_, ?_, ?_, ?_, ?_, ?_,
    ?_⟩
  · rw [newLine_i, newLine_i, hs.ieq]
  · rw [newLine_h, newLine_h, hs.heq]
  · rw [newLine_h]
    omega
  · rw [newLine_previousMaxLineWidth, newLine_previousMaxLineWidth,
      hs.peq, hs.ieq, hlast]
  · rw [newLine_columns, newLine_columns, hs.ceq]
  · rw [newLine_color, newLine_color, hs.coleq]
  · intro j hj
    rw [newLine_h] at hj
    by_cases hjh : j = b1.h
    · subst hjh
      rw [e1, hs.heq, e2]
      exact hs.ieq
    · rw [aget_newLine_starts_ne b1 j hjh,
        aget_newLine_starts_ne b2 j (hs.heq ▸ hjh)]
      exact hs.starts_eq j (by omega)
  · rw [newLine_h]
    exact newLine_starts_size b1 hs.hpos hs.hsz1
  · rw [newLine_h]
    exact newLine_starts_size b2 (hs.heq ▸ hs.hpos) hs.hsz2
  · intro j hj
    rw [newLine_i] at hj
    rw [newLine_buffer, newLine_buffer]
    exact hs.data_eq j hj
  · intro j hj
    rw [newLine_i] at hj
    rw [newLine_colors, newLine_colors]
    exact hs.col_eq j hj
  · rw [newLine_i, newLine_buffer]
    exact hs.isz1
  · rw [newLine_i, newLine_buffer]
    exact hs.isz2
  · rw [newLine_buffer]
    exact hs.dpos1
  · rw [newLine_buffer]
    exact hs.dpos2
  · rw [newLine_colors, newLine_buffer]
    exact hs.cs1
  · rw [newLine_colors, newLine_buffer]
    exact hs.cs2


theorem SimR.appendStep {b1 b2 : Buffer} (x : Nat) (hs : SimR b1 b2) :
    SimR (b1.appendStep x) (b2.appendStep x) := by
  refine ⟨?_, ?_, ?_, ?_, ?_, ?_, ?_, ?_, ?_, ?_, ?_, ?_, ?_, ?_, ?_, ?_,
    ?_⟩
  · rw [appendStep_i, appendStep_i, hs.ieq]
  · rw [appendStep_h, appendStep_h, hs.heq]
  · rw [appendStep_h]
    exact hs.hpos
  · rw [appendStep_previousMaxLineWidth, appendStep_previousMaxLineWidth,
      hs.peq]
  · rw [appendStep_columns, appendStep_columns, hs.ceq]
  · rw [appendStep_color, appendStep_color, hs.coleq]
  · intro j hj
    rw [appendStep_h] at hj
    rw [appendStep_starts, appendStep_starts]
    exact hs.starts_eq j hj
  · rw [appendStep_h, appendStep_starts]
    exact hs.hsz1
  · rw [appendStep_h, appendStep_starts]
    exact hs.hsz2
  · intro j hj
    rw [appendStep_i] at hj
    by_cases hji : j = b1.i
    · subst hji
      rw [aget_appendStep_buffer_self b1 x hs.isz1 hs.dpos1, hs.ieq,
        aget_appendStep_buffer_self b2 x hs.isz2 hs.dpos2]
    · rw [aget_appendStep_buffer_ne b1 x j hji,
        aget_appendStep_buffer_ne b2 x j (fun h => hji (hs.ieq.symm ▸ h))]
      exact hs.data_eq j (by omega)
  · intro j hj
    rw [appendStep_i] at hj
    by_cases hji : j = b1.i
    · subst hji
      rw [aget_appendStep_colors_self b1 x hs.isz1 hs.dpos1 hs.cs1, hs.ieq,
        aget_appendStep_colors_self b2 x hs.isz2 hs.dpos2 hs.cs2, hs.coleq]
    · rw [aget_appendStep_colors_ne b1 x j hji,
        aget_appendStep_colors_ne b2 x j (fun h => hji (hs.ieq.symm ▸ h))]
      exact hs.col_eq j (by omega)
  · rw [appendStep_i]
    exact appendStep_i_le_size b1 x hs.isz1 hs.dpos1
  · rw [appendStep_i]
    exact appendStep_i_le_size b2 x hs.isz2 hs.dpos2
  · have := appendStep_buffer_size_ge b1 x
    have := hs.dpos1
    omega
  · have := appendStep_buffer_size_ge b2 x
    have := hs.dpos2
    omega
  · exact appendStep_colors_size b1 x hs.cs1
  · exact appendStep_colors_size b2 x hs.cs2

theorem SimR.writeCharCode {b1 b2 : Buffer} (x : Nat) (hs : SimR b1 b2) :
    SimR (b1.writeCharCode x) (b2.writeCharCode x) := by
  have hcond : b1.i - aget b1.starts (b1.h - 1) =
      b2.i - aget b2.starts (b2.h - 1) := by
    have hlast := hs.starts_eq (b1.h - 1) (by have := hs.hpos; omega)
    rw [hs.ieq, hlast, hs.heq]
  rw [writeCharCode_eq_ite, writeCharCode_eq_ite]
  by_cases hw : b1.i - aget b1.starts (b1.h - 1) ≥ b1.columns
  · rw [if_pos hw, if_pos (by rw [← hcond, ← hs.ceq]; exact hw)]
    exact SimR.appendStep x (SimR.newLine hs)
  · rw [if_neg hw, if_neg (by rw [← hcond, ← hs.ceq]; exact hw)]
    exact SimR.appendStep x hs

theorem SimR.writeString {b1 b2 : Buffer} (s : List Nat) (hs : SimR b1 b2) :
    SimR (b1.writeString s) (b2.writeString s) := by
  induction s generalizing b1 b2 with
  | nil => exact hs
  | cons c s ih =>
    rw [writeString_cons, writeString_cons]
    by_cases hc : c = 10
    · rw [if_pos hc, if_pos hc]
      exact ih (SimR.newLine hs)
    · rw [if_neg hc, if_neg hc]
      exact ih (SimR.writeCharCode c hs)

theorem SimR.step {b1 b2 : Buffer} (op : WOp) (hs : SimR b1 b2) :
    SimR (b1.step op) (b2.step op) := by
  cases op with
  | write c => exact SimR.writeCharCode c hs
  | writeStr s => exact SimR.writeString s hs
  | newline => exact SimR.newLine hs

theorem SimR.run {b1 b2 : Buffer} (ops : List WOp) (hs : SimR b1 b2) :
    SimR (b1.run ops) (b2.run ops) := by
  induction ops generalizing b1 b2 with
  | nil => exact hs
  | cons op ops ih => exact ih (SimR.step op hs)

theorem SimR_clear_new (b : Buffer) (hWF : WF b) (hcol : b.color = 65535) :
    SimR (b.clear) (Buffer.new b.columns) := by
  obtain ⟨h1, h2, h3, h4, h5, h6, h7, h8, h9⟩ := hWF
  refine ⟨rfl, rfl, le_refl 1, rfl, rfl, hcol, ?_, ?_, ?_,
    ?_, ?_, Nat.zero_le _, Nat.zero_le _, h7, ?_, h8, rfl⟩
  · intro j hj
    have hj1 : j < 1 := hj
    have hj0 : j = 0 := by omega
    subst hj0
    show aget b.starts 0 = aget (Array.mkArray 32 0) 0
    rw [h3, aget_mkArray]
    simp
  · show 1 ≤ b.starts.size
    omega
  · show 1 ≤ (Array.mkArray 32 (0 : Nat)).size
    simp
  · intro j hj
    have hj0 : j < 0 := hj
    exact absurd hj0 (by omega)
  · intro j hj
    have hj0 : j < 0 := hj
    exact absurd hj0 (by omega)
  · show 0 < (Array.mkArray 1048576 (0 : Nat)).size
    simp

/-- C4 (amended): for every previously used buffer whose active color still
equals the constructor default `0xFFFF`, running any write sequence after
`clear()` produces the same write index and the same `buffer`/`colors`
contents over `[0, writeIndex)` as running it on a freshly constructed buffer
with the same column cap: capacity reuse is not observable through the data.
(The active style needs no hypothesis: it feeds only the `styles` channel.
When the active color was changed before `clear()`, `clear()` retains it and
the recorded colors differ — the counterexample.) -/
theorem c4_clear_replay (b : Buffer) (ops : List WOp) (hWF : WF b)
    (hcol : b.color = 65535) :
    ((b.clear).run ops).i = ((Buffer.new b.columns).run ops).i ∧
    ∀ j, j < ((b.clear).run ops).i →
      aget ((b.clear).run ops).buffer j =
        aget ((Buffer.new b.columns).run ops).buffer j ∧
      aget ((b.clear).run ops).colors j =
        aget ((Buffer.new b.columns).run ops).colors j := by
  have hs := SimR.run ops (SimR_clear_new b hWF hcol)
  exact ⟨hs.ieq, fun j hj => ⟨hs.data_eq j hj, hs.col_eq j hj⟩⟩


theorem clamp_mem {A : Type} [LinearOrder A] (v lo hi : A) (h : lo ≤ hi) :
    lo ≤ clamp v lo hi ∧ clamp v lo hi ≤ hi :=
  ⟨le_max_left _ _, max_le h (min_le_left _ _)⟩

theorem moveTo_w (s : Screen) (px py : Int) : (s.moveTo px py).w = s.w := rfl

theorem moveTo_h (s : Screen) (px py : Int) : (s.moveTo px py).h = s.h := rfl

theorem cursorInBox_moveTo (s : Screen) (px py : Int) :
    (s.moveTo px py).cursorInBox := by
  have hx := clamp_mem px 0 (s.w : Int) (Int.natCast_nonneg s.w)
  have hy := clamp_mem py 0 (s.h : Int) (Int.natCast_nonneg s.h)
  exact ⟨hx.1, hx.2, hy.1, hy.2⟩

theorem writeCharCode_grid_w (s : Screen) (c : Nat) :
    (s.writeCharCode c).w = s.w := by
  unfold Screen.writeCharCode
  dsimp only
  split
  · rfl
  · split <;> rfl

theorem writeCharCode_grid_h (s : Screen) (c : Nat) :
    (s.writeCharCode c).h = s.h := by
  unfold Screen.writeCharCode
  dsimp only
  split
  · rfl
  · split <;> rfl

theorem writeCharCode_cursor_y (s : Screen) (c : Nat) :
    (s.writeCharCode c).y = s.y := by
  unfold Screen.writeCharCode
  dsimp only
  split
  · rfl
  · split <;> rfl

theorem writeCharCode_cursor_x (s : Screen) (c : Nat) :
    (s.writeCharCode c).x = s.x ∨
    ((s.writeCharCode c).x = s.x + 1 ∧ s.x < (s.w : Int)) := by
  unfold Screen.writeCharCode
  dsimp only
  split
  · exact Or.inl rfl
  · split <;> rename_i hlt
    · exact Or.inr ⟨rfl, hlt⟩
    · exact Or.inl rfl

theorem cursorInBox_writeCharCode (s : Screen) (c : Nat)
    (hin : s.cursorInBox) : (s.writeCharCode c).cursorInBox := by
  obtain ⟨i1, i2, i3, i4⟩ := hin
  have hy := writeCharCode_cursor_y s c
  have hw := writeCharCode_grid_w s c
  have hh := writeCharCode_grid_h s c
  rcases writeCharCode_cursor_x s c with hx | ⟨hx, hlt⟩ <;>
    exact ⟨by omega, by omega, by omega, by omega⟩

theorem cursorInBox_writeString (s : Screen) (cs : List Nat)
    (hin : s.cursorInBox) : (s.writeString cs).cursorInBox := by
  induction cs generalizing s with
  | nil => exact hin
  | cons c cs ih => exact ih _ (cursorInBox_writeCharCode s c hin)

theorem writeCharCode_out_of_grid (s : Screen) (c : Nat)
    (hout : s.x ≥ (s.w : Int) ∨ s.x < 0 ∨ s.y ≥ (s.h : Int) ∨ s.y < 0) :
    s.writeCharCode c = s := by
  unfold Screen.writeCharCode
  rw [if_pos hout]

/-- C9 (amended): the cursor coordinates are clamped to the closed box
`[0, columns] x [0, rows]`, not the half-open box of the original claim:
`moveTo` lands in the closed box from any argument, and from any state whose
cursor is already in the closed box, `writeCharCode` and `writeString` keep it
there (`moveTo` clamps inclusively and an in-grid write advances `x` up to
`columns`, so the half-open box is not an invariant); and every
`writeCharCode` issued while the cursor is anywhere outside the half-open grid
`[0, columns) x [0, rows)` — at the inclusive boundary or at arbitrary
out-of-range coordinates — leaves the tilemap array completely unchanged,
raises no error, and does not change the grid dimensions or the tilemap
size. -/
theorem c9_cursor_clamped (s : Screen) (px py : Int) (c : Nat) (cs : List Nat) :
    (s.moveTo px py).cursorInBox ∧
    (s.cursorInBox → (s.writeCharCode c).cursorInBox) ∧
    (s.cursorInBox → (s.writeString cs).cursorInBox) ∧
    ((s.x ≥ (s.w : Int) ∨ s.x < 0 ∨ s.y ≥ (s.h : Int) ∨ s.y < 0) →
      (s.writeCharCode c).screenBuffer = s.screenBuffer ∧
      (s.writeCharCode c).w = s.w ∧ (s.writeCharCode c).h = s.h ∧
      (s.writeCharCode c).screenBuffer.size = s.screenBuffer.size) := by
  refine ⟨cursorInBox_moveTo s px py, cursorInBox_writeCharCode s c,
    cursorInBox_writeString s cs, ?_⟩
  intro hout
  have hdrop := writeCharCode_out_of_grid s c hout
  refine ⟨?_, writeCharCode_grid_w s c, writeCharCode_grid_h s c, ?_⟩
  · rw [hdrop]
  · rw [hdrop]

theorem invalidate_screenBuffer (s : Screen) :
    (s.invalidate).screenBuffer = s.screenBuffer := rfl

theorem wbOuter_last_row_empty (buf : Buffer) (sxv syv wv dxv dyv : Int)
    (s : Screen) (n : Nat) (hn : n ≤ 1)
    (hsyv : syv = (buf.h : Int) - 1) (h1 : 1 ≤ buf.h) (hsx : 0 ≤ sxv)
    (hempty : buf.i = aget buf.starts (buf.h - 1)) :
    Screen.wbOuter buf sxv syv wv dxv dyv n 0 s = s := by
  rcases Nat.lt_or_ge n 1 with h | h
  · have hn0 : n = 0 := by omega
    subst hn0
    rfl
  · have hn1 : n = 1 := by omega
    subst hn1
    have hidx : ((syv + 0).toNat) = buf.h - 1 := by omega
    have hcond : syv + 0 + 1 = (buf.h : Int) := by omega
    have e0 : Screen.wbOuter buf sxv syv wv dxv dyv 1 0 s =
        Screen.wbInner buf (aget buf.starts ((syv + 0).toNat) : Int) sxv dxv
          dyv 0
          (min ((if syv + 0 + 1 = (buf.h : Int) then (buf.i : Int)
                 else (aget buf.starts ((syv + 0 + 1).toNat) : Int)) -
                (aget buf.starts ((syv + 0).toNat) : Int) - sxv) wv).toNat
          0 s := rfl
    rw [e0, if_pos hcond, hidx, ← hempty]
    have hl : (min ((buf.i : Int) - (buf.i : Int) - sxv) wv).toNat = 0 := by
      omega
    rw [hl]
    rfl

/-- C2 (amended): a `writeBuffer` call whose `sourceY` is at or beyond the
buffer row count is clamped to copy from the buffer last recorded row
(`sy` is clamped into `[0, rowCount - 1]`), not to a zero-size copy; the
screen tilemap array is left completely unchanged whenever that last row is
empty (`writeIndex = lineStarts[rowCount - 1]`), and in particular for any
source rectangle over an empty buffer.  (When the last row holds characters,
the clamped call copies them — the counterexample.) -/
theorem c2_writeBuffer_clamped (s : Screen) (buf : Buffer) (sx sy sw sh : Int)
    (h1 : 1 ≤ buf.h) (hsy : (buf.h : Int) ≤ sy)
    (hempty : buf.i = aget buf.starts (buf.h - 1)) :
    (s.writeBuffer buf sx sy sw sh).screenBuffer = s.screenBuffer := by
  unfold Screen.writeBuffer
  dsimp only
  have hsyv : clamp sy 0 ((buf.h : Int) - 1) = (buf.h : Int) - 1 := by
    unfold clamp
    omega
  have hshv : clamp sh 0 ((buf.h : Int) - clamp sy 0 ((buf.h : Int) - 1)) ≤ 1 := by
    rw [hsyv]
    unfold clamp
    omega
  have hn : (min (clamp sh 0 ((buf.h : Int) - clamp sy 0 ((buf.h : Int) - 1)))
      ((s.h : Int) - s.y)).toNat ≤ 1 := by
    omega
  rw [wbOuter_last_row_empty buf _ _ _ _ _ s _ hn hsyv h1 ?hsx hempty]
  · rfl
  case hsx =>
    unfold clamp
    omega


/-- C3: from every view state whose scroll offsets already lie in the valid
ranges, `View.scroll` keeps `scrollY` in `[0, max 0 (buffer.rowCount -
screen.rows)]` and `scrollX` in `[0, max 0 (buffer.width - screen.columns)]`,
for deltas of any sign and magnitude (the clamp establishes the ranges
unconditionally). -/
theorem c3_scroll_clamped (v : View) (dx dy : Rat)
    (hy : 0 ≤ v.y ∧ v.y ≤ max 0 ((v.buffer.h : Rat) - (v.screen.h : Rat)))
    (hx : 0 ≤ v.x ∧ v.x ≤ max 0 ((v.buffer.w : Rat) - (v.screen.w : Rat))) :
    (0 ≤ (v.scroll dx dy).y ∧
      (v.scroll dx dy).y ≤ max 0 ((v.buffer.h : Rat) - (v.screen.h : Rat))) ∧
    (0 ≤ (v.scroll dx dy).x ∧
      (v.scroll dx dy).x ≤ max 0 ((v.buffer.w : Rat) - (v.screen.w : Rat))) := by
  unfold View.scroll clamp
  dsimp only
  exact ⟨⟨le_max_left _ _, max_le_max (le_refl 0) (min_le_left _ _)⟩,
    le_max_left _ _, max_le_max (le_refl 0) (min_le_left _ _)⟩

/-- C1 counterexample: with column cap 2, writing the three non-newline
characters "ABC" into a cleared buffer triggers the forced line break, and `w`
afterwards is 2 — not 3 (the characters written since `clear()`) and not 1
(the characters written since the forced internal `newLine()`). -/
theorem c1_counterexample :
    ((bufCap2.clear).writeString [65, 66, 67]).w = 2 ∧
    (∀ c ∈ [65, 66, 67], c ≠ 10) ∧ (2 : Nat) ≠ 3 ∧ (2 : Nat) ≠ 1 := by
  decide

theorem c1_width_after_clear_witness :
    (aget bufAB.starts 0 = 0 ∧
      (∀ op ∈ [WOp.write 65, WOp.writeStr [66, 67]], op.noNL = true) ∧
      charCount [WOp.write 65, WOp.writeStr [66, 67]] ≤ bufAB.columns) ∧
    ((bufAB.clear).run [WOp.write 65, WOp.writeStr [66, 67]]).w =
      charCount [WOp.write 65, WOp.writeStr [66, 67]] :=
  ⟨⟨by decide, by decide, by decide⟩,
    c1_width_after_clear bufAB [WOp.write 65, WOp.writeStr [66, 67]]
      (by decide) (by decide) (by decide)⟩

/-- C2 counterexample: copying with `sourceY = 5` from a buffer whose single
(last) row holds "AB" changes the tilemap: the call is clamped to the last
row, not to a zero-size copy. -/
theorem c2_counterexample :
    (5 : Int) ≥ (bufAB.h : Int) ∧
    (scr4.writeBuffer bufAB 0 5 1024 1024).screenBuffer ≠
      scr4.screenBuffer := by
  decide

theorem c2_writeBuffer_clamped_witness :
    (1 ≤ bufABnl.h ∧ (bufABnl.h : Int) ≤ 7 ∧
      bufABnl.i = aget bufABnl.starts (bufABnl.h - 1)) ∧
    (scr4.writeBuffer bufABnl 0 7 1024 1024).screenBuffer =
      scr4.screenBuffer :=
  ⟨⟨by decide, by decide, by decide⟩,
    c2_writeBuffer_clamped scr4 bufABnl 0 7 1024 1024 (by decide) (by decide)
      (by decide)⟩

theorem c3_scroll_clamped_witness :
    ((0 ≤ viewEx.y ∧
      viewEx.y ≤ max 0 ((viewEx.buffer.h : Rat) - (viewEx.screen.h : Rat))) ∧
     (0 ≤ viewEx.x ∧
      viewEx.x ≤ max 0 ((viewEx.buffer.w : Rat) - (viewEx.screen.w : Rat)))) ∧
    ((0 ≤ (viewEx.scroll 100 (-7)).y ∧
      (viewEx.scroll 100 (-7)).y ≤
        max 0 ((viewEx.buffer.h : Rat) - (viewEx.screen.h : Rat))) ∧
     (0 ≤ (viewEx.scroll 100 (-7)).x ∧
      (viewEx.scroll 100 (-7)).x ≤
        max 0 ((viewEx.buffer.w : Rat) - (viewEx.screen.w : Rat)))) := by
  have hy : 0 ≤ viewEx.y ∧
      viewEx.y ≤ max 0 ((viewEx.buffer.h : Rat) - (viewEx.screen.h : Rat)) :=
    ⟨le_refl 0, le_max_left 0 _⟩
  have hx : 0 ≤ viewEx.x ∧
      viewEx.x ≤ max 0 ((viewEx.buffer.w : Rat) - (viewEx.screen.w : Rat)) :=
    ⟨le_refl 0, le_max_left 0 _⟩
  exact ⟨⟨hy, hx⟩, c3_scroll_clamped viewEx 100 (-7) hy hx⟩

/-- C4 counterexample: when the active color (0 here) differs from the
constructor default, a character written after `clear()` records color 0 while
the same write on a freshly constructed buffer records 65535, so the `colors`
prefixes differ at index 0 (which is below the common write index 1). -/
theorem c4_counterexample :
    aget ((bufColor0.clear).run [WOp.write 65]).colors 0 = 0 ∧
    aget ((Buffer.new 8).run [WOp.write 65]).colors 0 = 65535 ∧
    (0 : Nat) < ((bufColor0.clear).run [WOp.write 65]).i ∧
    (0 : Nat) ≠ 65535 := by
  have hrun1 : (bufColor0.clear).run [WOp.write 65] =
      (bufColor0.clear).writeCharCode 65 := rfl
  have hrun2 : (Buffer.new 8).run [WOp.write 65] =
      (Buffer.new 8).writeCharCode 65 := rfl
  have hcap1 : ¬ (bufColor0.clear).i -
      aget (bufColor0.clear).starts ((bufColor0.clear).h - 1) ≥
      (bufColor0.clear).columns := by
    show ¬ 0 - aget (Array.mkArray 32 0) 0 ≥ 8
    rw [aget_mkArray]
    simp
  have hcap2 : ¬ (Buffer.new 8).i -
      aget (Buffer.new 8).starts ((Buffer.new 8).h - 1) ≥
      (Buffer.new 8).columns := by
    show ¬ 0 - aget (Array.mkArray 32 0) 0 ≥ 8
    rw [aget_mkArray]
    simp
  have hpos : 0 < (Array.mkArray 1048576 (0 : Nat)).size := by
    rw [Array.size_mkArray]
    omega
  refine ⟨?_, ?_, ?_, by decide⟩
  · rw [hrun1, writeCharCode_of_no_wrap _ _ hcap1]
    exact aget_appendStep_colors_self (bufColor0.clear) 65 (Nat.zero_le _)
      hpos rfl
  · rw [hrun2, writeCharCode_of_no_wrap _ _ hcap2]
    exact aget_appendStep_colors_self (Buffer.new 8) 65 (Nat.zero_le _)
      hpos rfl
  · rw [hrun1, writeCharCode_i]
    show (0 : Nat) < 0 + 1
    omega

theorem c4_clear_replay_witness :
    (WF bufAB ∧ bufAB.color = 65535) ∧
    (((bufAB.clear).run [WOp.write 67]).i =
      ((Buffer.new bufAB.columns).run [WOp.write 67]).i ∧
     ∀ j, j < ((bufAB.clear).run [WOp.write 67]).i →
       aget ((bufAB.clear).run [WOp.write 67]).buffer j =
         aget ((Buffer.new bufAB.columns).run [WOp.write 67]).buffer j ∧
       aget ((bufAB.clear).run [WOp.write 67]).colors j =
         aget ((Buffer.new bufAB.columns).run [WOp.write 67]).colors j) :=
  ⟨⟨by decide, rfl⟩,
    c4_clear_replay bufAB [WOp.write 67] (by decide) rfl⟩

theorem c5_cap_forces_wrap_witness :
    (WF bufAtCap ∧
      bufAtCap.i - aget bufAtCap.starts (bufAtCap.h - 1) ≥ bufAtCap.columns) ∧
    ((bufAtCap.writeCharCode 67).h = bufAtCap.h + 1 ∧
     aget (bufAtCap.writeCharCode 67).starts
       ((bufAtCap.writeCharCode 67).h - 1) = bufAtCap.i ∧
     (bufAtCap.writeCharCode 67).i = bufAtCap.i + 1 ∧
     aget (bufAtCap.writeCharCode 67).buffer bufAtCap.i = 67 % 256 ∧
     (bufAtCap.writeCharCode 67).i - aget (bufAtCap.writeCharCode 67).starts
       ((bufAtCap.writeCharCode 67).h - 1) = 1) :=
  ⟨⟨by decide, by decide⟩,
    c5_cap_forces_wrap bufAtCap 67 (by decide) (by decide)⟩

/-- C6 counterexample: a single `newLine()` on a fresh buffer records the line
starts 0 and 0 — equal, not strictly increasing. -/
theorem c6_counterexample :
    ((Buffer.new 8).newLine).h = 2 ∧
    aget ((Buffer.new 8).newLine).starts 0 = 0 ∧
    aget ((Buffer.new 8).newLine).starts 1 = 0 ∧
    ¬ (∀ j, j < ((Buffer.new 8).newLine).h →
        ∀ k, k < ((Buffer.new 8).newLine).h → j < k →
        aget ((Buffer.new 8).newLine).starts j <
          aget ((Buffer.new 8).newLine).starts k) := by
  decide

theorem c6_lineStarts_monotone_witness :
    (∀ j, j < (Buffer.new 4).h → ∀ k, k < (Buffer.new 4).h → j ≤ k →
      aget (Buffer.new 4).starts j ≤ aget (Buffer.new 4).starts k) ∧
    aget (Buffer.new 4).starts ((Buffer.new 4).h - 1) ≤ (Buffer.new 4).i :=
  c6_lineStarts_monotone (Buffer.new 4) (Reachable.new 4)

theorem c7_growth_preserves_witness :
    (0 : Nat) < bufAB.i ∧
    (aget (bufAB.run [WOp.write 67, WOp.newline]).buffer 0 =
       aget bufAB.buffer 0 ∧
     aget (bufAB.run [WOp.write 67, WOp.newline]).colors 0 =
       aget bufAB.colors 0 ∧
     aget (bufAB.run [WOp.write 67, WOp.newline]).styles 0 =
       aget bufAB.styles 0) :=
  ⟨by decide, c7_growth_preserves bufAB [WOp.write 67, WOp.newline] 0
    (by decide)⟩

/-- C8 counterexample: `clear()` resets `version` to 0, so on a buffer whose
version is 1 the mutation `clear` does not leave the counter strictly
greater. -/
theorem c8_counterexample :
    ((Buffer.new 8).newLine).version = 1 ∧
    (((Buffer.new 8).newLine).clear).version = 0 ∧
    ¬ ((Buffer.new 8).newLine).version <
        (((Buffer.new 8).newLine).clear).version := by
  decide

/-- C9 counterexample: `moveTo(10, 0)` on a 4 x 4 screen clamps the cursor to
`x = 4 = columns`, outside the half-open box `[0, columns)`. -/
theorem c9_counterexample :
    (scr4.moveTo 10 0).x = 4 ∧ (scr4.moveTo 10 0).w = 4 ∧
    ¬ (scr4.moveTo 10 0).x < (((scr4.moveTo 10 0).w : Int)) := by
  decide

theorem c9_cursor_clamped_witness :
    (scrEdge.cursorInBox ∧
      (scrEdge.x ≥ (scrEdge.w : Int) ∨ scrEdge.x < 0 ∨
       scrEdge.y ≥ (scrEdge.h : Int) ∨ scrEdge.y < 0)) ∧
    ((scrEdge.moveTo 2 3).cursorInBox ∧
     (scrEdge.writeCharCode 65).cursorInBox ∧
     (scrEdge.writeString [66, 67]).cursorInBox ∧
     (scrEdge.writeCharCode 65).screenBuffer = scrEdge.screenBuffer ∧
     (scrEdge.writeCharCode 65).w = scrEdge.w ∧
     (scrEdge.writeCharCode 65).h = scrEdge.h ∧
     (scrEdge.writeCharCode 65).screenBuffer.size =
       scrEdge.screenBuffer.size) := by
  have hin : scrEdge.cursorInBox := by decide
  have hout : scrEdge.x ≥ (scrEdge.w : Int) ∨ scrEdge.x < 0 ∨
      scrEdge.y ≥ (scrEdge.h : Int) ∨ scrEdge.y < 0 := by decide
  have h := c9_cursor_clamped scrEdge 2 3 65 [66, 67]
  exact ⟨⟨hin, hout⟩, h.1, h.2.1 hin, h.2.2.1 hin, h.2.2.2 hout⟩

theorem c10_clear_keeps_color_witness :
    WF bufAB ∧
    ((bufAB.clear).color = bufAB.color ∧
     (bufAB.clear).style = bufAB.style ∧
     aget ((bufAB.clear).writeCharCode 67).colors 0 = bufAB.color % 65536 ∧
     aget ((bufAB.clear).writeCharCode 67).styles 0 = bufAB.style % 256) :=
  ⟨by decide, c10_clear_keeps_color bufAB 67 (by decide)⟩

end Terminal
